import Mathlib

/-
Verification of the process-execution core of `@effect-ts/process`.

The definitions below are a shallow embedding of the TypeScript sources:
  * `src/packages/process/src/Command/index.ts`   (Command model, combinators, run)
  * `src/packages/process/src/Process/index.ts`   (exitCode / successfulExitCode)
  * `src/packages/process/src/CommandError/index.ts` and
    `src/packages/process/src/Internal/SystemError/index.ts` (error taxonomy)
  * `src/packages/process/src/Internal/Transducer/index.ts` (utf8Decode, splitLines)

Modelling conventions:
  * A JS immutable record class becomes a Lean inductive/structure; `c.copy({f})`
    becomes a field updater that changes only that field.
  * Effects are embedded by their observable data: `run` is modelled by the
    description of the single OS spawn it ultimately performs, byte streams by
    the syntax tree of how they were built, and the stateful transducers by
    explicit state-passing folds over the list of input chunks.
  * Bytes delivered by Node `Buffer`s (`Uint8Array`) read back as unsigned
    integers 0..255; they are modelled as `Nat`.  JS literals that can be
    negative (the byte-order-mark constant `[-17, -69, -65]`) are kept as `Int`
    and compared against bytes with JS number equality (`Int.ofNat b == x`).
-/

-- -----------------------------------------------------------------------------
-- Command model (src/packages/process/src/Command/index.ts)
-- -----------------------------------------------------------------------------

/-- ProcessOutput (src/ProcessOutput): routing for stdout/stderr.  The
`Redirect` variant carries a NodeJS `Writable` stream, modelled here by an
identity token. -/
inductive ProcessOutput where
  | inherit : ProcessOutput
  | pipe : ProcessOutput
  | redirect (redirectTo : Nat) : ProcessOutput
deriving DecidableEq, Repr

mutual

/-- A byte stream (`S.IO<CommandError, Byte>`), by how the program built it:
either a literal chunk source (`ProcessInput.fromString` / `fromByteArray`,
modelled by the byte values) or `Command.stream` applied to a standard command
(the stdout of running that command), which is the only shape `run` builds. -/
inductive ByteStream where
  | fromChunk (bytes : List Int) : ByteStream
  | ofRunStandard (c : StandardCommand) : ByteStream

/-- StandardCommand: program name, ordered argument list, environment
overrides, optional working directory, stdin source (`ProcessInput.source`,
`none` = inherit), stdout/stderr routing, and the merge-stderr flag. -/
inductive StandardCommand where
  | mk (command : String) (args : List String) (env : List (String × String))
       (workingDirectory : Option String) (stdin : Option ByteStream)
       (stdout : ProcessOutput) (stderr : ProcessOutput)
       (redirectErrorStream : Bool) : StandardCommand

end

/-- Command: tagged union of StandardCommand and PipedCommand. -/
inductive Command where
  | standard (c : StandardCommand) : Command
  | piped (left right : Command) : Command

instance : Inhabited StandardCommand :=
  ⟨.mk "" [] [] none none .pipe .pipe false⟩

def StandardCommand.command : StandardCommand → String
  | .mk c _ _ _ _ _ _ _ => c

def StandardCommand.args : StandardCommand → List String
  | .mk _ a _ _ _ _ _ _ => a

def StandardCommand.env : StandardCommand → List (String × String)
  | .mk _ _ e _ _ _ _ _ => e

def StandardCommand.workingDirectory : StandardCommand → Option String
  | .mk _ _ _ w _ _ _ _ => w

def StandardCommand.stdin : StandardCommand → Option ByteStream
  | .mk _ _ _ _ i _ _ _ => i

def StandardCommand.stdout : StandardCommand → ProcessOutput
  | .mk _ _ _ _ _ o _ _ => o

def StandardCommand.stderr : StandardCommand → ProcessOutput
  | .mk _ _ _ _ _ _ e _ => e

def StandardCommand.redirectErrorStream : StandardCommand → Bool
  | .mk _ _ _ _ _ _ _ r => r

/-- `c.copy({ env })` -/
def StandardCommand.withEnv : StandardCommand → List (String × String) → StandardCommand
  | .mk c a _ w i o e r, env => .mk c a env w i o e r

/-- `c.copy({ workingDirectory })` -/
def StandardCommand.withWorkingDirectory :
    StandardCommand → Option String → StandardCommand
  | .mk c a v _ i o e r, w => .mk c a v w i o e r

/-- `c.copy({ stdin })` -/
def StandardCommand.withStdin : StandardCommand → Option ByteStream → StandardCommand
  | .mk c a v w _ o e r, i => .mk c a v w i o e r

/-- `c.copy({ stdout })` -/
def StandardCommand.withStdout : StandardCommand → ProcessOutput → StandardCommand
  | .mk c a v w i _ e r, o => .mk c a v w i o e r

/-- `c.copy({ stderr })` -/
def StandardCommand.withStderr : StandardCommand → ProcessOutput → StandardCommand
  | .mk c a v w i o _ r, e => .mk c a v w i o e r

/-- `c.copy({ redirectErrorStream })` -/
def StandardCommand.withRedirectErrorStream : StandardCommand → Bool → StandardCommand
  | .mk c a v w i o e _, r => .mk c a v w i o e r

/-- `command(processName, ...args)`: StandardCommand with empty env, no working
directory, inherited stdin, piped stdout/stderr, merge flag false. -/
def command (processName : String) (args : List String) : Command :=
  .standard (.mk processName args [] none none .pipe .pipe false)

/-- `pipeTo_(left, right)`: constructs a PipedCommand. -/
def pipeTo_ (left right : Command) : Command :=
  .piped left right

/-- `env_`: sets the environment of a StandardCommand; descends into both
sides of a PipedCommand. -/
def env_ : Command → List (String × String) → Command
  | .standard c, env => .standard (c.withEnv env)
  | .piped l r, env => .piped (env_ l env) (env_ r env)

/-- `workingDirectory_`: sets `O.some(workingDirectory)` on a StandardCommand;
descends into both sides of a PipedCommand. -/
def workingDirectory_ : Command → String → Command
  | .standard c, w => .standard (c.withWorkingDirectory (some w))
  | .piped l r, w => .piped (workingDirectory_ l w) (workingDirectory_ r w)

/-- `stdin_`: sets stdin on a StandardCommand; for a PipedCommand descends
only into `left`. -/
def stdin_ : Command → Option ByteStream → Command
  | .standard c, i => .standard (c.withStdin i)
  | .piped l r, i => .piped (stdin_ l i) r

/-- `stdout_`: sets stdout on a StandardCommand; for a PipedCommand descends
only into `right`. -/
def stdout_ : Command → ProcessOutput → Command
  | .standard c, o => .standard (c.withStdout o)
  | .piped l r, o => .piped l (stdout_ r o)

/-- `stderr_`: sets stderr on a StandardCommand; for a PipedCommand descends
only into `right`. -/
def stderr_ : Command → ProcessOutput → Command
  | .standard c, e => .standard (c.withStderr e)
  | .piped l r, e => .piped l (stderr_ r e)

/-- `redirectErrorStream_`: sets the merge flag on a StandardCommand; for a
PipedCommand descends only into `right`. -/
def redirectErrorStream_ : Command → Bool → Command
  | .standard c, b => .standard (c.withRedirectErrorStream b)
  | .piped l r, b => .piped l (redirectErrorStream_ r b)

/-- `flatten`: a StandardCommand flattens to a one-element sequence; a
PipedCommand to left-to-right concatenation. -/
def flatten : Command → List StandardCommand
  | .standard c => [c]
  | .piped l r => flatten l ++ flatten r

/-- C2: flattening makes the association of pipeTo irrelevant: for all
Commands the two associations of `pipeTo` flatten identically, and for
StandardCommands both flatten to the three-element sequence `[s1, s2, s3]`. -/
theorem flatten_pipeTo_assoc :
    (∀ c1 c2 c3 : Command,
      flatten (pipeTo_ (pipeTo_ c1 c2) c3) = flatten (pipeTo_ c1 (pipeTo_ c2 c3))) ∧
    (∀ s1 s2 s3 : StandardCommand,
      flatten (pipeTo_ (pipeTo_ (.standard s1) (.standard s2)) (.standard s3))
          = [s1, s2, s3] ∧
      flatten (pipeTo_ (.standard s1) (pipeTo_ (.standard s2) (.standard s3)))
          = [s1, s2, s3]) := by
  constructor
  · intro c1 c2 c3
    simp [pipeTo_, flatten, List.append_assoc]
  · intro s1 s2 s3
    constructor <;> simp [pipeTo_, flatten]

-- -----------------------------------------------------------------------------
-- C3: frame conditions of the combinators on flattened pipelines
-- -----------------------------------------------------------------------------

/-- Apply `f` to the last element of a list, leaving the rest unchanged. -/
def modifyLast {α : Type} (f : α → α) : List α → List α
  | [] => []
  | [a] => [f a]
  | a :: b :: rest => a :: modifyLast f (b :: rest)

theorem flatten_ne_nil (c : Command) : flatten c ≠ [] := by
  induction c with
  | standard s => simp [flatten]
  | piped l r ihl ihr => simp [flatten, ihl]

theorem modifyLast_append {α : Type} (f : α → α) (xs ys : List α) (h : ys ≠ []) :
    modifyLast f (xs ++ ys) = xs ++ modifyLast f ys := by
  induction xs with
  | nil => simp
  | cons x xs ih =>
    rcases hxy : xs ++ ys with _ | ⟨b, rest⟩
    · exact absurd (List.append_eq_nil.mp hxy).2 h
    · simp only [List.cons_append, hxy, modifyLast]
      rw [← hxy, ih]

theorem modifyHead_append {α : Type} (f : α → α) (xs ys : List α) (h : xs ≠ []) :
    List.modifyHead f (xs ++ ys) = List.modifyHead f xs ++ ys := by
  cases xs with
  | nil => exact absurd rfl h
  | cons x xs => simp [List.modifyHead]

theorem flatten_env (c : Command) (e : List (String × String)) :
    flatten (env_ c e) = (flatten c).map (fun s => s.withEnv e) := by
  induction c with
  | standard s => simp [flatten, env_]
  | piped l r ihl ihr => simp [flatten, env_, ihl, ihr]

theorem flatten_workingDirectory (c : Command) (d : String) :
    flatten (workingDirectory_ c d)
      = (flatten c).map (fun s => s.withWorkingDirectory (some d)) := by
  induction c with
  | standard s => simp [flatten, workingDirectory_]
  | piped l r ihl ihr => simp [flatten, workingDirectory_, ihl, ihr]

theorem flatten_stdin (c : Command) (i : Option ByteStream) :
    flatten (stdin_ c i) = (flatten c).modifyHead (fun s => s.withStdin i) := by
  induction c with
  | standard s => simp [flatten, stdin_, List.modifyHead]
  | piped l r ihl _ =>
    simp only [flatten, stdin_, ihl]
    rw [modifyHead_append _ _ _ (flatten_ne_nil l)]

theorem flatten_stdout (c : Command) (o : ProcessOutput) :
    flatten (stdout_ c o) = modifyLast (fun s => s.withStdout o) (flatten c) := by
  induction c with
  | standard s => simp [flatten, stdout_, modifyLast]
  | piped l r _ ihr =>
    simp only [flatten, stdout_, ihr]
    rw [modifyLast_append _ _ _ (flatten_ne_nil r)]

theorem flatten_stderr (c : Command) (e : ProcessOutput) :
    flatten (stderr_ c e) = modifyLast (fun s => s.withStderr e) (flatten c) := by
  induction c with
  | standard s => simp [flatten, stderr_, modifyLast]
  | piped l r _ ihr =>
    simp only [flatten, stderr_, ihr]
    rw [modifyLast_append _ _ _ (flatten_ne_nil r)]

theorem flatten_redirectErrorStream (c : Command) (b : Bool) :
    flatten (redirectErrorStream_ c b)
      = modifyLast (fun s => s.withRedirectErrorStream b) (flatten c) := by
  induction c with
  | standard s => simp [flatten, redirectErrorStream_, modifyLast]
  | piped l r _ ihr =>
    simp only [flatten, redirectErrorStream_, ihr]
    rw [modifyLast_append _ _ _ (flatten_ne_nil r)]

/-- C3: on the flattened stages, `env_` and `workingDirectory_` update the
corresponding field of every stage, `stdin_` updates the stdin field of the
first stage only, and `stdout_`, `stderr_`, `redirectErrorStream_` update the
corresponding field of the last stage only.  Each right-hand side is a
field-targeted update (`map` over all stages, `modifyHead`, `modifyLast`), so
every other stage, every other field of the modified stage, and the number and
order of stages are unchanged. -/
theorem combinators_frame_on_flatten :
    (∀ (c : Command) (e : List (String × String)),
      flatten (env_ c e) = (flatten c).map (fun s => s.withEnv e)) ∧
    (∀ (c : Command) (d : String),
      flatten (workingDirectory_ c d)
        = (flatten c).map (fun s => s.withWorkingDirectory (some d))) ∧
    (∀ (c : Command) (i : Option ByteStream),
      flatten (stdin_ c i) = (flatten c).modifyHead (fun s => s.withStdin i)) ∧
    (∀ (c : Command) (o : ProcessOutput),
      flatten (stdout_ c o) = modifyLast (fun s => s.withStdout o) (flatten c)) ∧
    (∀ (c : Command) (e : ProcessOutput),
      flatten (stderr_ c e) = modifyLast (fun s => s.withStderr e) (flatten c)) ∧
    (∀ (c : Command) (b : Bool),
      flatten (redirectErrorStream_ c b)
        = modifyLast (fun s => s.withRedirectErrorStream b) (flatten c)) :=
  ⟨flatten_env, flatten_workingDirectory, flatten_stdin, flatten_stdout,
   flatten_stderr, flatten_redirectErrorStream⟩

-- -----------------------------------------------------------------------------
-- C9: run on a PipedCommand
-- -----------------------------------------------------------------------------

/-- The observable outcome of `run`: which single StandardCommand is handed to
the StandardCommand branch (validate working directory, `P.start`, fork the
stdin drain) — the Process returned to the caller is the one spawned from it. -/
inductive RunAction where
  | runStandard (c : StandardCommand) : RunAction

/-- `run`: the StandardCommand branch starts that command; the PipedCommand
branch flattens, delegates to the single-command case when the flattening has
length 1, and otherwise folds `stream` left-to-right over the middle stages
(`slice(1, length - 1)`), seeded with the stream of the first stage, and runs
the last stage with its stdin set to the folded stream
(`run(stdin_(C.unsafeLast(chunk), PI.fromStream(inputStream)))`).  `stream c`
(`S.chain(S.fromEffect(run(c)), (p) => p.stdout)`) is modelled by
`ByteStream.ofRunStandard`; in this branch it is only ever applied to standard
commands.  `run` applied to a StandardCommand is the `runStandard` branch, so
those inner calls are inlined. -/
def run : Command → RunAction
  | .standard c => .runStandard c
  | .piped l r =>
    let chunk := flatten (.piped l r)
    if chunk.length == 1 then
      .runStandard chunk.head!
    else
      let inputStream :=
        ((chunk.drop 1).dropLast).foldl
          (fun s c => ByteStream.ofRunStandard (c.withStdin (some s)))
          (ByteStream.ofRunStandard chunk.head!)
      .runStandard ((chunk.getLast!).withStdin (some inputStream))

/-- Modelled from the spec: "run command₀, take its stdout as a byte sequence,
set it as command₁'s stdin source, run command₁ producing its stdout, set that
as command₂'s stdin, …" — the stream obtained by threading the first stage
through the following stages left-to-right. -/
def specPipelineStream : StandardCommand → List StandardCommand → ByteStream
  | c, [] => .ofRunStandard c
  | c, d :: ds => specPipelineStream (d.withStdin (some (.ofRunStandard c))) ds

/-- Modelled from the spec: the stdin source for the last stage, built from all
stages before it (none when there are no earlier stages). -/
def specChainAll : List StandardCommand → Option ByteStream
  | [] => none
  | c :: ds => some (specPipelineStream c ds)

theorem foldl_eq_specPipelineStream (c : StandardCommand) (ds : List StandardCommand) :
    ds.foldl (fun s d => ByteStream.ofRunStandard (d.withStdin (some s)))
        (ByteStream.ofRunStandard c)
      = specPipelineStream c ds := by
  induction ds generalizing c with
  | nil => rfl
  | cons d ds ih => simpa [specPipelineStream, List.foldl_cons] using ih (d.withStdin (some (.ofRunStandard c)))

theorem two_le_flatten_piped (l r : Command) :
    2 ≤ (flatten (Command.piped l r)).length := by
  have hl := flatten_ne_nil l
  have hr := flatten_ne_nil r
  simp only [flatten, List.length_append]
  rcases List.exists_cons_of_ne_nil hl with ⟨a, as, h1⟩
  rcases List.exists_cons_of_ne_nil hr with ⟨b, bs, h2⟩
  rw [h1, h2]
  simp
  omega

/-- C9: `run` on a PipedCommand: the flattening always has at least 2 stages
(so the claim's length-1 clause — delegation to the single StandardCommand
case — never fires for an actual PipedCommand and holds vacuously), and `run`
returns only the action for the last flattened stage with its stdin replaced
by the stream built by the spec's left-to-right fold over all earlier
stages. -/
theorem run_piped_returns_last_stage (l r : Command) :
    2 ≤ (flatten (Command.piped l r)).length ∧
    run (Command.piped l r)
      = .runStandard (((flatten (Command.piped l r)).getLast!).withStdin
          (specChainAll ((flatten (Command.piped l r)).dropLast))) := by
  refine ⟨two_le_flatten_piped l r, ?_⟩
  have h2 := two_le_flatten_piped l r
  rcases hc : flatten (Command.piped l r) with _ | ⟨c0, rest⟩
  · rw [hc] at h2; simp at h2
  · have hrest : rest ≠ [] := by
      intro h
      rw [hc, h] at h2
      simp at h2
    show run (Command.piped l r) = _
    simp only [run]
    rw [hc]
    have hlen : ((c0 :: rest).length == 1) = false := by
      have h0 : rest.length ≠ 0 := fun h => hrest (List.length_eq_zero.mp h)
      rw [beq_eq_false_iff_ne]
      simp only [List.length_cons]
      omega
    rw [hlen]
    simp only [Bool.false_eq_true, if_false, List.head!, List.drop_succ_cons,
      List.drop_zero]
    rw [foldl_eq_specPipelineStream]
    have hdl : (c0 :: rest).dropLast = c0 :: rest.dropLast := by
      cases rest with
      | nil => exact absurd rfl hrest
      | cons b bs => rfl
    rw [hdl]
    rfl

-- -----------------------------------------------------------------------------
-- ExitCode (src/ExitCode) and CommandError (src/CommandError)
-- -----------------------------------------------------------------------------

/-- ExitCode is a plain JS class `class ExitCode { constructor(readonly code:
number) {} }` — it defines no structural equality, so the JS `===` operator on
ExitCode values is object identity.  A runtime ExitCode object is therefore
modelled by its allocation identity `ref` together with the wrapped `code`. -/
structure ExitCodeObj where
  ref : Nat
  code : Int
deriving DecidableEq, Repr

/-- `export const Success: ExitCode = new ExitCode(0)` — a single module-level
allocation; we give it identity 0. -/
def Success : ExitCodeObj := ⟨0, 0⟩

/-- `export const Failure: ExitCode = new ExitCode(1)` — a single module-level
allocation; we give it identity 1. -/
def Failure : ExitCodeObj := ⟨1, 1⟩

/-- `new ExitCode(code)` executed inside `exitCode`'s "exit" handler: a fresh
allocation, whose identity (2 + freshRef) differs from both module-level
constants. -/
def newExitCode (freshRef : Nat) (code : Int) : ExitCodeObj :=
  ⟨2 + freshRef, code⟩

/-- JS `===` on two ExitCode objects: reference (identity) equality. -/
def jsStrictEq (a b : ExitCodeObj) : Bool :=
  a.ref == b.ref

/-- CommandError: tagged union.  `NonZeroExitCode` carries the observed
ExitCode object. -/
inductive CommandError where
  | ioError (reason : String) : CommandError
  | programNotFound (reason : String) : CommandError
  | permissionDenied (reason : String) : CommandError
  | nonZeroExitCode (exitCode : ExitCodeObj) : CommandError
  | workingDirectoryMissing (workingDirectory : String) : CommandError
deriving DecidableEq, Repr

/-- `successfulExitCode` applied to the ExitCode produced by `exitCode`
(`T.filterOrElse_(exitCode(self), (ec) => ec === EC.Success, (ec) =>
T.fail(new CE.NonZeroExitCode({ exitCode: ec })))`). -/
def successfulExitCode (observed : ExitCodeObj) : Except CommandError ExitCodeObj :=
  if jsStrictEq observed Success then .ok observed
  else .error (.nonZeroExitCode observed)

/-- C1: a process that terminates with numeric exit code 0 produces the fresh
object `new ExitCode(0)`; its wrapped integer equals `Success.code`, yet
`successfulExitCode` fails with `NonZeroExitCode` carrying `ExitCode(0)`,
because the code compares with JS `===` (object identity, ExitCode having no
structural equality), not by wrapped integer.  This contradicts the claim and
the function's own documentation ("Return the exit code of this process if it
is zero"). -/
theorem successfulExitCode_zero_reported_nonzero :
    (newExitCode 0 0).code = Success.code ∧
    jsStrictEq (newExitCode 0 0) Success = false ∧
    successfulExitCode (newExitCode 0 0)
      = .error (.nonZeroExitCode (newExitCode 0 0)) := by
  refine ⟨rfl, rfl, ?_⟩
  rfl

-- -----------------------------------------------------------------------------
-- C7: classification of spawn failures (src/CommandError, src/Internal/SystemError)
-- -----------------------------------------------------------------------------

/-- The OS-reported spawn error handed to `refineOrDie` by `start`: a NodeJS
`Error` with its message and, when it is a `SystemError`, a `code` property
(`none` when the `code` property is absent). -/
structure JsError where
  message : String
  code : Option String
deriving DecidableEq, Repr

/-- `NODEJS_SYSTEM_ERROR_CODES` (src/Internal/SystemError). -/
def NODEJS_SYSTEM_ERROR_CODES : List String :=
  ["E2BIG", "EACCES", "EADDRINUSE", "EADDRNOTAVAIL", "EAFNOSUPPORT", "EAGAIN",
   "EALREADY", "EBADE", "EBADF", "EBADFD", "EBADMSG", "EBADR", "EBADRQC",
   "EBADSLT", "EBUSY", "ECANCELED", "ECHILD", "ECHRNG", "ECOMM", "ECONNABORTED",
   "ECONNREFUSED", "ECONNRESET", "EDEADLK", "EDEADLOCK", "EDESTADDRREQ", "EDOM",
   "EDQUOT", "EEXIST", "EFAULT", "EFBIG", "EHOSTDOWN", "EHOSTUNREACH", "EIDRM",
   "EILSEQ", "EINPROGRESS", "EINTR", "EINVAL", "EIO", "EISCONN", "EISDIR",
   "EISNAM", "EKEYEXPIRED", "EKEYREJECTED", "EKEYREVOKED", "EL2HLT", "EL2NSYNC",
   "EL3HLT", "EL3RST", "ELIBACC", "ELIBBAD", "ELIBMAX", "ELIBSCN", "ELIBEXEC",
   "ELOOP", "EMEDIUMTYPE", "EMFILE", "EMLINK", "EMSGSIZE", "EMULTIHOP",
   "ENAMETOOLONG", "ENETDOWN", "ENETRESET", "ENETUNREACH", "ENFILE", "ENOBUFS",
   "ENODATA", "ENODEV", "ENOENT", "ENOEXEC", "ENOKEY", "ENOLCK", "ENOLINK",
   "ENOMEDIUM", "ENOMEM", "ENOMSG", "ENONET", "ENOPKG", "ENOPROTOOPT", "ENOSPC",
   "ENOSR", "ENOSTR", "ENOSYS", "ENOTBLK", "ENOTCONN", "ENOTDIR", "ENOTEMPTY",
   "ENOTSOCK", "ENOTSUP", "ENOTTY", "ENOTUNIQ", "ENXIO", "EOPNOTSUPP",
   "EOVERFLOW", "EPERM", "EPFNOSUPPORT", "EPIPE", "EPROTO", "EPROTONOSUPPORT",
   "EPROTOTYPE", "ERANGE", "EREMCHG", "EREMOTE", "EREMOTEIO", "ERESTART",
   "EROFS", "ESHUTDOWN", "ESPIPE", "ESOCKTNOSUPPORT", "ESRCH", "ESTALE",
   "ESTRPIPE", "ETIME", "ETIMEDOUT", "ETXTBSY", "EUCLEAN", "EUNATCH", "EUSERS",
   "EWOULDBLOCK", "EXDEV", "EXFULL"]

/-- Whether `needle` occurs at the start of `hay`. -/
def listStartsWith : List Char → List Char → Bool
  | _, [] => true
  | [], _ :: _ => false
  | a :: as, b :: bs => a == b && listStartsWith as bs

/-- Whether `needle` occurs anywhere in `hay`. -/
def listContainsSub (needle : List Char) : List Char → Bool
  | [] => needle.isEmpty
  | c :: rest => listStartsWith (c :: rest) needle || listContainsSub needle rest

/-- JS `message.indexOf(sub) > -1`: substring containment. -/
def strContains (s sub : String) : Bool :=
  listContainsSub sub.toList s.toList

/-- `isSystemError`: an Error object carrying a `code` property whose value is
one of the known NodeJS system error codes. -/
def isSystemError (e : JsError) : Bool :=
  match e.code with
  | some c => NODEJS_SYSTEM_ERROR_CODES.contains c
  | none => false

/-- `isProgramNotFound` (the `u instanceof Error` test always holds for the
spawn errors handed to the classifier). -/
def isProgramNotFound (e : JsError) : Option CommandError :=
  if isSystemError e && e.code == some "ENOENT" then
    some (.programNotFound e.message)
  else if strContains e.message "ENOENT" then
    some (.programNotFound e.message)
  else
    none

/-- `isPermissionDenied`. -/
def isPermissionDenied (e : JsError) : Option CommandError :=
  if isSystemError e && (e.code == some "EACCES" || e.code == some "EPERM") then
    some (.permissionDenied e.message)
  else if strContains e.message "EACCES" || strContains e.message "EPERM" then
    some (.permissionDenied e.message)
  else
    none

/-- `isIOError`: every Error is refined to a generic `IOError`. -/
def isIOError (e : JsError) : Option CommandError :=
  some (.ioError e.message)

/-- The refinement used by `start`:
`First(isProgramNotFound e) <> (First(isPermissionDenied e) <> First(isIOError e))`
— `getFirstAssociative` keeps the first `Some`. -/
def classifySpawnError (e : JsError) : Option CommandError :=
  (isProgramNotFound e).orElse fun _ =>
    (isPermissionDenied e).orElse fun _ => isIOError e

theorem isProgramNotFound_eq (e : JsError) :
    isProgramNotFound e
      = if e.code = some "ENOENT" ∨ strContains e.message "ENOENT" = true then
          some (.programNotFound e.message)
        else none := by
  rcases e with ⟨msg, code⟩
  simp only [isProgramNotFound, isSystemError]
  rcases code with _ | c
  · by_cases h1 : strContains msg "ENOENT" = true <;> simp [h1]
  · by_cases hEN : c = "ENOENT"
    · subst hEN
      have hm : ("ENOENT" : String) ∈ NODEJS_SYSTEM_ERROR_CODES := by decide
      simp [hm]
    · by_cases h1 : strContains msg "ENOENT" = true <;> simp [hEN, h1]

theorem isPermissionDenied_eq (e : JsError) :
    isPermissionDenied e
      = if e.code = some "EACCES" ∨ e.code = some "EPERM"
            ∨ strContains e.message "EACCES" = true
            ∨ strContains e.message "EPERM" = true then
          some (.permissionDenied e.message)
        else none := by
  rcases e with ⟨msg, code⟩
  simp only [isPermissionDenied, isSystemError]
  rcases code with _ | c
  · by_cases h2 : strContains msg "EACCES" = true <;>
      by_cases h3 : strContains msg "EPERM" = true <;> simp [h2, h3]
  · by_cases hEA : c = "EACCES"
    · subst hEA
      have hm : ("EACCES" : String) ∈ NODEJS_SYSTEM_ERROR_CODES := by decide
      simp [hm]
    · by_cases hEP : c = "EPERM"
      · subst hEP
        have hm : ("EPERM" : String) ∈ NODEJS_SYSTEM_ERROR_CODES := by decide
        simp [hm]
      · by_cases h2 : strContains msg "EACCES" = true <;>
          by_cases h3 : strContains msg "EPERM" = true <;> simp [hEA, hEP, h2, h3]

/-- C7: spawn-failure classification is a pure function of the OS-reported
error and always produces exactly one CommandError, by first match in priority
order: ProgramNotFound when the error carries OS code "ENOENT" or its message
contains "ENOENT"; otherwise PermissionDenied when it carries OS code "EACCES"
or "EPERM" or its message contains one of them; otherwise a generic IOError. -/
theorem classifySpawnError_priority (e : JsError) :
    classifySpawnError e
      = some
          (if e.code = some "ENOENT" ∨ strContains e.message "ENOENT" = true then
            .programNotFound e.message
          else if e.code = some "EACCES" ∨ e.code = some "EPERM"
              ∨ strContains e.message "EACCES" = true
              ∨ strContains e.message "EPERM" = true then
            .permissionDenied e.message
          else
            .ioError e.message) := by
  rw [classifySpawnError, isProgramNotFound_eq, isPermissionDenied_eq, isIOError]
  by_cases h1 : e.code = some "ENOENT" ∨ strContains e.message "ENOENT" = true
  · simp [h1, Option.orElse]
  · by_cases h2 : e.code = some "EACCES" ∨ e.code = some "EPERM"
        ∨ strContains e.message "EACCES" = true
        ∨ strContains e.message "EPERM" = true
    · simp [h1, h2, Option.orElse]
    · simp [h1, h2, Option.orElse]

-- -----------------------------------------------------------------------------
-- C8: working-directory validation in run's StandardCommand branch
-- -----------------------------------------------------------------------------

/-- What `FileSystem.stat` reports for a path: a directory, a regular file, or
some other filesystem object (socket, fifo, ...). -/
inductive FileStat where
  | directory : FileStat
  | file : FileStat
  | other : FileStat
deriving DecidableEq, Repr

/-- `pathExists`: `stat` error (path absent, modelled by `none`) yields false;
otherwise `stats.isDirectory() || stats.isFile()`. -/
def pathExists (fs : String → Option FileStat) (path : String) : Bool :=
  match fs path with
  | none => false
  | some st => st == .directory || st == .file

/-- `validateWorkingDirectory`: no directory set succeeds; otherwise fail with
`WorkingDirectoryMissing` unless `pathExists`. -/
def validateWorkingDirectory (fs : String → Option FileStat)
    (workingDirectory : Option String) : Except CommandError Unit :=
  match workingDirectory with
  | none => .ok ()
  | some directory =>
    if pathExists fs directory then .ok ()
    else .error (.workingDirectoryMissing directory)

/-- The StandardCommand branch of `run`
(`validateWorkingDirectory(c.workingDirectory)` sequenced before `P.start(c)`,
then the forked stdin drain): an `.ok c` result means validation passed and
execution proceeds to spawn `c`; an `.error` result is produced by the
validation alone, before any spawn attempt, so no process is started.  The
function is pure in the filesystem snapshot, so repeated runs against the same
filesystem state fail identically. -/
def runStandardCommand (fs : String → Option FileStat) (c : StandardCommand) :
    Except CommandError StandardCommand :=
  match validateWorkingDirectory fs c.workingDirectory with
  | .error e => .error e
  | .ok _ => .ok c

/-- C8: with `workingDirectory = some d`, if `d` does not exist as a directory
or file then `run` fails with `WorkingDirectoryMissing d` without reaching the
spawn; if `d` exists as a directory or file, or no working directory is set,
validation succeeds and execution proceeds to spawn the command. -/
theorem run_validates_workingDirectory (fs : String → Option FileStat)
    (c : StandardCommand) (d : String) :
    (c.workingDirectory = some d → pathExists fs d = false →
      runStandardCommand fs c = .error (.workingDirectoryMissing d)) ∧
    (c.workingDirectory = some d → pathExists fs d = true →
      runStandardCommand fs c = .ok c) ∧
    (c.workingDirectory = none → runStandardCommand fs c = .ok c) := by
  refine ⟨?_, ?_, ?_⟩
  · intro hw hp
    simp [runStandardCommand, validateWorkingDirectory, hw, hp]
  · intro hw hp
    simp [runStandardCommand, validateWorkingDirectory, hw, hp]
  · intro hw
    simp [runStandardCommand, validateWorkingDirectory, hw]

/-- A concrete command with working directory `/some/bad/path`. -/
def wdTestCommand : StandardCommand :=
  .mk "ls" [] [] (some "/some/bad/path") none .pipe .pipe false

/-- Witness for C8: on a filesystem where `/some/bad/path` is absent the run
fails with `WorkingDirectoryMissing`; on one where it is a directory the run
proceeds to spawn. -/
theorem run_validates_workingDirectory_witness :
    runStandardCommand (fun _ => none) wdTestCommand
        = .error (.workingDirectoryMissing "/some/bad/path") ∧
    runStandardCommand (fun _ => some .directory) wdTestCommand
        = .ok wdTestCommand :=
  ⟨(run_validates_workingDirectory (fun _ => none) wdTestCommand
      "/some/bad/path").1 rfl rfl,
   (run_validates_workingDirectory (fun _ => some .directory) wdTestCommand
      "/some/bad/path").2.1 rfl rfl⟩

-- -----------------------------------------------------------------------------
-- UTF-8 decoding transducer (src/Internal/Transducer)
-- -----------------------------------------------------------------------------

/-- `(b & 0xe0) === 0xc0` — lead byte of a 2-byte UTF-8 sequence.  Bytes read
from Node buffers are 0..255, for which JS int32 bitwise-and agrees with
`Nat.land`. -/
def isTwoByteSequenceStart (b : Nat) : Bool :=
  (b &&& 0xe0) == 0xc0

/-- `(b & 0xf0) === 0xe0` — lead byte of a 3-byte UTF-8 sequence. -/
def isThreeByteSequenceStart (b : Nat) : Bool :=
  (b &&& 0xf0) == 0xe0

/-- `(b & 0xf8) === 0xf0` — lead byte of a 4-byte UTF-8 sequence. -/
def isFourByteSequenceStart (b : Nat) : Bool :=
  (b &&& 0xf8) == 0xf0

/-- `computeSplit`: the index at which to split the buffered bytes, holding
back an incomplete multi-byte tail of at most 3 bytes.  `getD` with guard
matches the in-bounds `C.unsafeGet_` accesses. -/
def computeSplit (chunk : List Nat) : Nat :=
  let length := chunk.length
  if 1 ≤ length &&
      (isTwoByteSequenceStart (chunk.getD (length - 1) 0) ||
        isThreeByteSequenceStart (chunk.getD (length - 1) 0) ||
        isFourByteSequenceStart (chunk.getD (length - 1) 0)) then
    length - 1
  else if 2 ≤ length &&
      (isThreeByteSequenceStart (chunk.getD (length - 2) 0) ||
        isFourByteSequenceStart (chunk.getD (length - 2) 0)) then
    length - 2
  else if 3 ≤ length && isFourByteSequenceStart (chunk.getD (length - 3) 0) then
    length - 3
  else
    length

/-- `String.fromCharCode(...bytes)`: each JS number becomes the UTF-16 code
unit `ToUint16(n)`; for buffer bytes 0..255 this is the character with that
code (Latin-1), with no UTF-8 multi-byte combination. -/
def fromCharCodes (bytes : List Nat) : String :=
  String.mk (bytes.map fun b => Char.ofNat (b % 65536))

/-- One push of `utf8DecodeInternal`: prepend the leftover bytes, split at
`computeSplit`, emit the initial part (when non-empty) as one string, keep the
tail as the new leftover. -/
def utf8DecodeStep (leftovers bytes : List Nat) : List String × List Nat :=
  let concat := leftovers ++ bytes
  let toConvert := concat.take (computeSplit concat)
  let newLeftovers := concat.drop (computeSplit concat)
  (if toConvert.isEmpty then [] else [fromCharCodes toConvert], newLeftovers)

/-- End-of-stream flush of `utf8DecodeInternal`: any leftover bytes are
decoded as-is rather than dropped. -/
def utf8DecodeFlush (leftovers : List Nat) : List String :=
  if leftovers.isEmpty then [] else [fromCharCodes leftovers]

/-- Run `utf8DecodeInternal` from a given leftover state over the remaining
input chunks, flushing at end of stream. -/
def runUtf8Go (leftovers : List Nat) : List (List Nat) → List String
  | [] => utf8DecodeFlush leftovers
  | c :: cs =>
    (utf8DecodeStep leftovers c).1 ++ runUtf8Go (utf8DecodeStep leftovers c).2 cs

/-- Run `utf8DecodeInternal` (initial leftover state empty) to end of
stream. -/
def runUtf8DecodeInternal (chunks : List (List Nat)) : List String :=
  runUtf8Go [] chunks

/-- The leftover states after each input chunk (used to bound the held-back
tail). -/
def utf8LeftoverStates (leftovers : List Nat) : List (List Nat) → List (List Nat)
  | [] => []
  | c :: cs =>
    (utf8DecodeStep leftovers c).2
      :: utf8LeftoverStates (utf8DecodeStep leftovers c).2 cs

/-- The byte-order-mark constant of `utf8Decode`: `C.from([-17, -69, -65])` —
JS number literals, negative because they were ported from signed Scala
bytes. -/
def bomChunk : List Int := [-17, -69, -65]

/-- `C.corresponds_(bytes, bomChunk, number.equals)`: pointwise JS number
equality, false when the lengths differ.  The left side holds unsigned buffer
bytes, compared as the JS numbers they are. -/
def correspondsNumberEq (bytes : List Nat) (model : List Int) : Bool :=
  bytes.length == model.length &&
    (List.zip bytes model).all fun p => Int.ofNat p.1 == p.2

/-- `branchAfter(3, ...)` input splitting: collect the first `n` bytes across
chunk boundaries; the unconsumed remainder of the chunk in which the n-th byte
fell is fed (when non-empty) as the first chunk of the rest. -/
def splitFirstBytes (n : Nat) : List (List Nat) → List Nat × List (List Nat)
  | [] => ([], [])
  | c :: cs =>
    if n ≤ c.length then
      (c.take n, if (c.drop n).isEmpty then cs else c.drop n :: cs)
    else
      ((c ++ (splitFirstBytes (n - c.length) cs).1),
        (splitFirstBytes (n - c.length) cs).2)

/-- `utf8Decode`: after the first 3 bytes, either continue with the bare
decoder (when they correspond to `bomChunk`) or prepend those 3 bytes back
onto the decoder's input (`pipe(prepend(bytes), then(utf8DecodeInternal))`).
A stream shorter than 3 bytes cannot match the 3-byte constant and is decoded
whole. -/
def utf8Decode (chunks : List (List Nat)) : List String :=
  let first := (splitFirstBytes 3 chunks).1
  let rest := (splitFirstBytes 3 chunks).2
  if correspondsNumberEq first bomChunk then runUtf8DecodeInternal rest
  else runUtf8DecodeInternal (first :: rest)

/-- C5: the two-byte UTF-8 encoding of "é" (0xC3 0xA9) decodes to the same
string whether fed as single-byte chunks or as one chunk — the incomplete
multi-byte tail is held back at the boundary — but that string is "Ã©" (each
byte mapped to its own UTF-16 code unit by `String.fromCharCode`), not "é":
the decoder never combines a multi-byte sequence into its code point. -/
theorem utf8Decode_split_invariant_but_not_utf8 :
    runUtf8DecodeInternal [[0xC3], [0xA9]] = runUtf8DecodeInternal [[0xC3, 0xA9]] ∧
    runUtf8DecodeInternal [[0xC3, 0xA9]] = ["Ã©"] ∧
    ("Ã©" : String) ≠ "é" := by
  refine ⟨by decide, by decide, by decide⟩

/-- C6: a stream beginning with the byte-order-mark bytes 0xEF 0xBB 0xBF (the
unsigned values 239 187 191 read from a Node buffer) does NOT have them
stripped: the comparison against `C.from([-17, -69, -65])` never holds for
unsigned bytes, so the BOM bytes are fed back into the decoder like ordinary
input and appear in the decoded output ("ï»¿A" instead of "A"). -/
theorem utf8Decode_bom_not_stripped :
    correspondsNumberEq [239, 187, 191] bomChunk = false ∧
    utf8Decode [[239, 187, 191, 65]]
      = [fromCharCodes [239, 187, 191], fromCharCodes [65]] ∧
    String.join (utf8Decode [[239, 187, 191, 65]]) ≠ "A" := by
  refine ⟨by decide, by decide, by decide⟩

theorem join_append (a b : List String) :
    String.join (a ++ b) = String.join a ++ String.join b := by
  apply String.ext
  simp [String.join_eq]

theorem fromCharCodes_append (a b : List Nat) :
    fromCharCodes (a ++ b) = fromCharCodes a ++ fromCharCodes b := by
  apply String.ext
  simp [fromCharCodes]

theorem runUtf8Go_join (chunks : List (List Nat)) :
    ∀ leftovers : List Nat,
      String.join (runUtf8Go leftovers chunks)
        = fromCharCodes (leftovers ++ chunks.flatten) := by
  induction chunks with
  | nil =>
    intro leftovers
    simp only [runUtf8Go, utf8DecodeFlush, List.flatten_nil, List.append_nil]
    rcases leftovers with _ | ⟨b, bs⟩
    · rfl
    · simp [String.join_eq]
  | cons c cs ih =>
    intro leftovers
    simp only [runUtf8Go, join_append, ih]
    have hsplit :
        (utf8DecodeStep leftovers c).2
          = (leftovers ++ c).drop (computeSplit (leftovers ++ c)) := rfl
    have hjoin1 :
        String.join (utf8DecodeStep leftovers c).1
          = fromCharCodes ((leftovers ++ c).take (computeSplit (leftovers ++ c))) := by
      show String.join
          (if ((leftovers ++ c).take (computeSplit (leftovers ++ c))).isEmpty
            then [] else
              [fromCharCodes ((leftovers ++ c).take (computeSplit (leftovers ++ c)))])
          = _
      rcases htc : (leftovers ++ c).take (computeSplit (leftovers ++ c)) with _ | ⟨b, bs⟩
      · rfl
      · simp [String.join_eq]
    rw [hjoin1, hsplit, List.flatten_cons, ← fromCharCodes_append]
    rw [← List.append_assoc, List.take_append_drop, List.append_assoc]

theorem computeSplit_sub_le (chunk : List Nat) :
    chunk.length - computeSplit chunk ≤ 3 := by
  simp only [computeSplit]
  split
  · omega
  · split
    · omega
    · split <;> omega

theorem utf8Step_leftover_le (l c : List Nat) :
    (utf8DecodeStep l c).2.length ≤ 3 := by
  show ((l ++ c).drop (computeSplit (l ++ c))).length ≤ 3
  rw [List.length_drop]
  exact computeSplit_sub_le _

theorem utf8States_le (chunks : List (List Nat)) :
    ∀ (leftovers l : List Nat),
      l ∈ utf8LeftoverStates leftovers chunks → l.length ≤ 3 := by
  induction chunks with
  | nil =>
    intro _ l h
    simp [utf8LeftoverStates] at h
  | cons c cs ih =>
    intro leftovers l h
    simp only [utf8LeftoverStates, List.mem_cons] at h
    rcases h with h | h
    · subst h
      exact utf8Step_leftover_le _ _
    · exact ih _ _ h

/-- C10: running `utf8DecodeInternal` over any partition of a byte sequence
into consecutive chunks and flushing at end of stream emits strings whose
concatenation depends only on the underlying bytes — every partition (in
particular the single-chunk one) decodes to the same string, no byte is lost
or reordered (the join always equals the per-byte decoding of all input
bytes), and the held-back leftover after every step is at most 3 bytes. -/
theorem utf8DecodeInternal_partition_invariant :
    (∀ p1 p2 : List (List Nat), p1.flatten = p2.flatten →
      String.join (runUtf8DecodeInternal p1)
        = String.join (runUtf8DecodeInternal p2)) ∧
    (∀ (chunks : List (List Nat)) (l : List Nat),
      l ∈ utf8LeftoverStates [] chunks → l.length ≤ 3) := by
  constructor
  · intro p1 p2 h
    unfold runUtf8DecodeInternal
    rw [runUtf8Go_join, runUtf8Go_join, h]
  · intro chunks l h
    exact utf8States_le chunks [] l h

/-- Witness for C10: the two-byte sequence 0xC3 0xA9 fed as single-byte chunks
and as one chunk decodes to the same string, and the intermediate held-back
leftover `[0xC3]` has length at most 3. -/
theorem utf8DecodeInternal_partition_invariant_witness :
    String.join (runUtf8DecodeInternal [[195], [169]])
        = String.join (runUtf8DecodeInternal [[195, 169]]) ∧
    ([195] : List Nat).length ≤ 3 :=
  ⟨utf8DecodeInternal_partition_invariant.1 [[195], [169]] [[195, 169]] (by decide),
   utf8DecodeInternal_partition_invariant.2 [[195], [169]] [195] (by decide)⟩

-- -----------------------------------------------------------------------------
-- splitLines transducer (src/Internal/Transducer)
-- -----------------------------------------------------------------------------

/-- The scan loop of `splitLines` over the concatenated buffer, recast from
index form (`i`, `sliceStart`) to the suffix still to scan (`pending =
concat.drop i`) and the characters of the current slice scanned or skipped so
far (`acc = concat[sliceStart..i)`); `buffer` collects emitted lines.  The
branches mirror the source in order: `\n` emits the current slice; `\r`
immediately followed by `\n` emits the current slice and skips both; a `\r`
that is the last character of the buffer sets the split-CRLF flag and is kept
in the carry; any other character is kept in the current slice.  Returns the
emitted lines, the final carry (`concat.substring(sliceStart)`), and the
flag. -/
def splitLinesLoop : List Char → List Char → List String → Bool →
    List String × List Char × Bool
  | [], acc, buffer, inCRLF => (buffer, acc, inCRLF)
  | '\n' :: rest, acc, buffer, inCRLF =>
    splitLinesLoop rest [] (buffer ++ [String.mk acc]) inCRLF
  | '\r' :: '\n' :: rest, acc, buffer, inCRLF =>
    splitLinesLoop rest [] (buffer ++ [String.mk acc]) inCRLF
  | ['\r'], acc, buffer, _ => (buffer, acc ++ ['\r'], true)
  | ch :: rest, acc, buffer, inCRLF =>
    splitLinesLoop rest (acc ++ [ch]) buffer inCRLF

/-- Processing one input string: prepend the carry; when the previous chunk
ended in a split CRLF start scanning at the carry's final `\r`
(`carry.length - 1`), otherwise skip the whole carry (`carry.length`); scan
the rest.  An empty concatenation leaves the state untouched. -/
def splitLinesString (carry : String) (inCRLF : Bool) (str : String) :
    List String × String × Bool :=
  let concat := carry ++ str
  if 0 < concat.length then
    let start := if inCRLF && 0 < carry.length then carry.length - 1
                 else carry.length
    let out := splitLinesLoop (concat.toList.drop start) (concat.toList.take start)
                 [] inCRLF
    (out.1, String.mk out.2.1, out.2.2)
  else
    ([], carry, inCRLF)

/-- One push of `splitLines`: fold the per-string step over the strings of the
chunk, accumulating the emitted lines in one buffer. -/
def splitLinesChunk (carry : String) (inCRLF : Bool) (strings : List String) :
    List String × String × Bool :=
  strings.foldl
    (fun st s =>
      (st.1 ++ (splitLinesString st.2.1 st.2.2 s).1,
        (splitLinesString st.2.1 st.2.2 s).2))
    ([], carry, inCRLF)

/-- Run `splitLines` from a given state over the remaining input chunks; at
end of stream a non-empty carry is emitted as a final line (the state stores
the carry as `Some` exactly when it is non-empty). -/
def runSplitLinesGo (carry : String) (inCRLF : Bool) :
    List (List String) → List String
  | [] => if 0 < carry.length then [carry] else []
  | chunk :: rest =>
    (splitLinesChunk carry inCRLF chunk).1
      ++ runSplitLinesGo (splitLinesChunk carry inCRLF chunk).2.1
           (splitLinesChunk carry inCRLF chunk).2.2 rest

/-- Run `splitLines` from the initial state (no carry, flag false) to end of
stream. -/
def runSplitLines (chunks : List (List String)) : List String :=
  runSplitLinesGo "" false chunks

/-- C4: the three line-splitting examples.  Chunks `["a\r", "\nb"]` yield
exactly `["a", "b"]` (the CRLF split across the chunk boundary is merged into
one line break); the single chunk `["a\r\n"]` yields exactly `["a"]`; the
single chunk `["a\rb"]` (bare `\r` not at a boundary and not followed by
`\n`) yields the single unsplit line `"a\rb"`. -/
theorem splitLines_examples :
    runSplitLines [["a\r"], ["\nb"]] = ["a", "b"] ∧
    runSplitLines [["a\r\n"]] = ["a"] ∧
    runSplitLines [["a\rb"]] = ["a\rb"] := by
  refine ⟨by decide, by decide, by decide⟩
